import Mathlib

/-!
Verification of the blockchain payment validation and settlement core
(UsdcService / EthService / AutoDrawing backend).

JavaScript strings are modelled as `List Char` (`JStr`); JavaScript string
operations (`split`, `padEnd`, `padStart`, `slice`, `startsWith`, `trim`,
`toLowerCase`) are modelled by the `js*` functions below.  JavaScript
`BigInt` values are modelled as `Int` (arbitrary precision, division and
remainder truncate toward zero, matching `Int.tdiv` / `Int.tmod`), and
`BigInt(string)` conversion, which throws on malformed input, is modelled
by `parseBigInt : JStr → Option Int` (restricted to optional-sign decimal
numerals, the only shapes arising here).
-/

/-- Model of a JavaScript string. -/
abbrev JStr := List Char

/-- Model of `String.prototype.toLowerCase` (ASCII range, sufficient for
hex addresses and config strings). -/
def jsToLower (s : JStr) : JStr := s.map Char.toLower

/-- Model of `s.padEnd(n, c)`: append copies of `c` up to length `n`. -/
def jsPadEnd (s : JStr) (n : Nat) (c : Char) : JStr :=
  s ++ List.replicate (n - s.length) c

/-- Model of `s.padStart(n, c)`: prepend copies of `c` up to length `n`. -/
def jsPadStart (s : JStr) (n : Nat) (c : Char) : JStr :=
  List.replicate (n - s.length) c ++ s

/-- Model of `s.slice(a, b)` for `0 ≤ a ≤ b`: characters `[a, b)`. -/
def jsSlice (s : JStr) (a b : Nat) : JStr := (s.drop a).take (b - a)

/-- Model of `s.slice(a)` for `0 ≤ a`: characters from index `a` on. -/
def jsSliceFrom (s : JStr) (a : Nat) : JStr := s.drop a

/-- Model of `s.trim()` (ASCII whitespace). -/
def jsTrim (s : JStr) : JStr :=
  ((s.dropWhile Char.isWhitespace).reverse.dropWhile Char.isWhitespace).reverse

/-- Model of `s.split(sep)` for a one-character separator: always returns a
non-empty list of (possibly empty) fragments. -/
def jsSplit (sep : Char) : JStr → List JStr
  | [] => [[]]
  | c :: rest =>
    match jsSplit sep rest with
    | [] => [[]]
    | h :: t => if c = sep then [] :: h :: t else (c :: h) :: t

/-- Numeric value of a decimal digit character. -/
def digitVal (c : Char) : Nat := c.toNat - 48

/-- Value of a string of decimal digits (most significant first); `none`
when empty or a non-digit occurs.  This is the digits part of the
JavaScript `BigInt(string)` grammar. -/
def parseNatDigits (cs : JStr) : Option Nat :=
  if cs.isEmpty then none
  else if cs.all Char.isDigit then
    some (cs.foldl (fun a c => a * 10 + digitVal c) 0)
  else none

/-- Model of the JavaScript `BigInt(string)` conversion on the decimal
fragment of its grammar: empty string is `0`, an optional single sign is
followed by one or more decimal digits; anything else throws (`none`). -/
def parseBigInt (s : JStr) : Option Int :=
  match s with
  | [] => some 0
  | c :: rest =>
    if c = '-' then
      match parseNatDigits rest with
      | some n => some (-(n : Int))
      | none => none
    else if c = '+' then
      match parseNatDigits rest with
      | some n => some ((n : Int))
      | none => none
    else
      match parseNatDigits (c :: rest) with
      | some n => some ((n : Int))
      | none => none

/-- Numeric value of a hexadecimal digit character, `none` otherwise. -/
def hexVal (c : Char) : Option Nat :=
  if '0' ≤ c ∧ c ≤ '9' then some (c.toNat - 48)
  else if 'a' ≤ c ∧ c ≤ 'f' then some (c.toNat - 87)
  else if 'A' ≤ c ∧ c ≤ 'F' then some (c.toNat - 55)
  else none

/-- Model of `BigInt` applied to "0x" followed by `cs`: value of a non-empty string of hex
digits; `none` (a thrown `SyntaxError`) when empty or a non-hex-digit
occurs. -/
def parseHexDigits (cs : JStr) : Option Nat :=
  match cs with
  | [] => none
  | _ :: _ => cs.foldl (fun acc c => acc.bind fun a => (hexVal c).map fun v => a * 16 + v) (some 0)

/-- Tail of the decimal printer: emit the digits of `n` before `acc`,
spending one unit of fuel per digit. -/
def natToDigitsGo : Nat → Nat → JStr → JStr
  | 0, _, acc => acc
  | fuel + 1, n, acc =>
    if n < 10 then Nat.digitChar n :: acc
    else natToDigitsGo fuel (n / 10) (Nat.digitChar (n % 10) :: acc)

/-- Decimal digit string of a natural number (model of JavaScript
`BigInt.prototype.toString` on non-negative values): most significant
digit first, no leading zeros except for `0` itself. -/
def natToDigits (n : Nat) : JStr := natToDigitsGo (n + 1) n []

/-- Model of JavaScript `BigInt.prototype.toString` (used by template
string interpolation of a BigInt). -/
def intToDigits (i : Int) : JStr :=
  if i < 0 then '-' :: natToDigits i.natAbs else natToDigits i.toNat

/-!
Fixed-point unit conversion.  `UsdcService.toUnit6` / `fromUnit6`
(precision 6) and `EthService.toWei` / `fromWei` (precision 18) are the
same algorithm at different precisions; `toUnitCore` / `fromUnitCore`
embed the shared body, and the four named functions instantiate it.

Source (`UsdcService.toUnit6`):
  const [intPart, fracPartRaw] = n.split('.');
  const frac = (fracPartRaw || '').padEnd(6, '0').slice(0, 6);
  return BigInt(intPart || '0') * 10n ** 6n + BigInt(frac || '0');
A thrown `SyntaxError` from `BigInt(...)` on malformed input is the
`none` result.
-/

/-- Body shared by `toUnit6` (prec = 6) and `EthService.toWei`
(prec = 18), on the string form of the amount (a numeric argument is
first converted with `toString`, which yields its decimal form). -/
def toUnitCore (prec : Nat) (n : JStr) : Option Int :=
  let parts := jsSplit '.' n
  let intPart := parts.headD []
  let fracPartRaw := (parts.drop 1).headD []
  let frac := jsSlice (jsPadEnd fracPartRaw prec '0') 0 prec
  match parseBigInt (if intPart.isEmpty then ['0'] else intPart),
        parseBigInt (if frac.isEmpty then ['0'] else frac) with
  | some a, some b => some (a * (10 : Int) ^ prec + b)
  | _, _ => none

/-- Body shared by `fromUnit6` (prec = 6) and `EthService.fromWei`
(prec = 18):
  const intPart = amount / 10n ** p; const frac = amount % (10n ** p);
  return intPart + "." + frac.toString().padStart(p, '0');
(BigInt division truncates toward zero, remainder takes the sign of the dividend: `Int.tdiv` / `Int.tmod`.) -/
def fromUnitCore (prec : Nat) (amount : Int) : JStr :=
  let intPart := amount.tdiv ((10 : Int) ^ prec)
  let frac := amount.tmod ((10 : Int) ^ prec)
  intToDigits intPart ++ '.' :: jsPadStart (intToDigits frac) prec '0'

/-- Embeds `UsdcService.toUnit6`. -/
def toUnit6 (amountUsdc : JStr) : Option Int := toUnitCore 6 amountUsdc

/-- Embeds `UsdcService.fromUnit6`. -/
def fromUnit6 (amount6 : Int) : JStr := fromUnitCore 6 amount6

namespace EthService

/-- Embeds `EthService.toWei`. -/
def toWei (amountEth : JStr) : Option Int := toUnitCore 18 amountEth

/-- Embeds `EthService.fromWei`. -/
def fromWei (amountWei : Int) : JStr := fromUnitCore 18 amountWei

end EthService

/-!
Transfer validation.  The chain is observed only through RPC responses;
a `ProviderView` is the snapshot of the responses the validator receives
in one call: the awaited receipt (`waitForTransaction`, `none` on
timeout / not found), the transaction record (`getTransaction`) and the
current head block number (`getBlockNumber`).  Log decoding against the
ERC-20 ABI (`iface.parseLog`, an ethers library call) is abstracted as
data: each log carries the `Option ParsedLog` the library would return,
`none` covering both a parse failure (the caught exception) and a null
result.  All numbers are `Int` (JS numbers used here are integral block
numbers and statuses; values are BigInt).
-/

/-- Result of `iface.parseLog` on one log entry. -/
structure ParsedLog where
  name : JStr
  /-- Field `parsed.args[0]`, the `from` address of a Transfer event. -/
  arg0 : JStr
  /-- Field `parsed.args[1]`, the `to` address of a Transfer event. -/
  arg1 : JStr
  /-- Field `parsed.args[2]`, the value of a Transfer event. -/
  arg2 : Int
deriving DecidableEq

/-- One entry of `receipt.logs`. -/
structure LogEntry where
  /-- Field `log.address`; the empty string models a missing/falsy address. -/
  address : JStr
  /-- Outcome of `iface.parseLog({topics, data})` on this entry. -/
  parsed : Option ParsedLog
deriving DecidableEq

/-- The fields of the mined receipt the validators read. -/
structure ReceiptView where
  /-- Field `receipt.status` (`1` on success, `0` on revert, possibly null). -/
  status : Option Int
  /-- Field `receipt.blockNumber` (possibly null). -/
  blockNumber : Option Int
  /-- Field `receipt.logs`. -/
  logs : List LogEntry
deriving DecidableEq

/-- The fields of the `getTransaction` record the validators read. -/
structure TxView where
  /-- Field `tx.to` (null for contract creation). -/
  toAddr : Option JStr
  /-- Field `tx.from`. -/
  fromAddr : Option JStr
  /-- Field `tx.data`, the raw call data as a hex string. -/
  data : JStr
  /-- Field `tx.value` (BigInt; `none` models an absent field). -/
  value : Option Int
deriving DecidableEq

/-- Snapshot of the RPC responses one validation call receives. -/
structure ProviderView where
  /-- Result of `provider.waitForTransaction(txHash, 1, 60_000)`. -/
  receipt : Option ReceiptView
  /-- Result of `provider.getTransaction(txHash)`. -/
  tx : Option TxView
  /-- Result of `provider.getBlockNumber()`. -/
  blockNumber : Int
deriving DecidableEq

/-- The fields of `UsdcConfig` the embedded operations read.  The
constructor lower-cases the wallet addresses taken from the
environment. -/
structure UsdcConfig where
  tokenAddress : JStr
  depositWallet : JStr
  payoutWallet : JStr
deriving DecidableEq

/-- Embeds `PurchaseValidationResult` (and, field for field, the analogous
`EthPurchaseValidationResult`, whose amount field is named `amountWei`). -/
structure PurchaseValidationResult where
  ok : Bool
  reason : Option JStr
  txHash : Option JStr
  confirmations : Option Int
  /-- Field `amount6` for the token validator, `amountWei` for the native one. -/
  amount : Option Int
  sender : Option JStr
  toAddr : Option JStr
deriving DecidableEq

/-- A matched transfer `{from, to, value}` inside the validators. -/
structure MatchedTransfer where
  fromAddr : JStr
  toAddr : JStr
  value : Int
deriving DecidableEq

/-- The Transfer-event log scan of `UsdcService.validateIncomingTransfer`:
skip logs whose address is missing or is not the token contract, skip
undecodable logs, and take the first decoded `Transfer` whose recipient
is the deposit wallet and whose sender is the expected sender
(lower-cased); the `break` is the `some` return. -/
def findLogMatch (cfg : UsdcConfig) (expectedSender : JStr) : List LogEntry → Option MatchedTransfer
  | [] => none
  | log :: rest =>
    if log.address.isEmpty ∨ jsToLower log.address ≠ jsToLower cfg.tokenAddress then
      findLogMatch cfg expectedSender rest
    else
      match log.parsed with
      | none => findLogMatch cfg expectedSender rest
      | some parsed =>
        if parsed.name = ("Transfer".toList) then
          let fromA := jsToLower parsed.arg0
          let toA := jsToLower parsed.arg1
          let value := parsed.arg2
          if toA = cfg.depositWallet ∧ fromA = jsToLower expectedSender then
            some ⟨fromA, toA, value⟩
          else findLogMatch cfg expectedSender rest
        else findLogMatch cfg expectedSender rest

/-- The raw-call-data fallback of `UsdcService.validateIncomingTransfer`:
if the transaction exists, its destination is the token contract and its
call data starts with the `transfer(address,uint256)` selector
`0xa9059cbb`, decode recipient and amount from the two 32-byte argument
slots (the recipient from the low 20 bytes of the first slot) and accept
when sender and recipient match.  `Except.error ()` models the uncaught
`SyntaxError` thrown by `BigInt` on malformed hex in the value slot. -/
def fallbackMatch (cfg : UsdcConfig) (expectedSender : JStr) :
    Option TxView → Except Unit (Option MatchedTransfer)
  | none => .ok none
  | some tx =>
    match tx.toAddr with
    | none => .ok none
    | some t =>
      if ¬ t.isEmpty ∧ jsToLower t = jsToLower cfg.tokenAddress ∧
          List.isPrefixOf ("0xa9059cbb".toList) tx.data then
        let toEncoded := jsSlice tx.data 10 74
        let valEncoded := jsSlice tx.data 74 138
        let toA := ('0' :: 'x' :: jsSliceFrom toEncoded 24)
        match parseHexDigits valEncoded with
        | none => .error ()
        | some v =>
          let senderLower := jsToLower (tx.fromAddr.getD [])
          if senderLower = jsToLower expectedSender ∧ jsToLower toA = jsToLower cfg.depositWallet then
            .ok (some ⟨senderLower, jsToLower cfg.depositWallet, (v : Int)⟩)
          else .ok none
      else .ok none

/-- The transfer-matching step of `UsdcService.validateIncomingTransfer`:
the event-log strategy first, the raw-call-data fallback only when no
log matched. -/
def usdcMatchedTransfer (cfg : UsdcConfig) (expectedSender : JStr)
    (logs : List LogEntry) (tx : Option TxView) : Except Unit (Option MatchedTransfer) :=
  match findLogMatch cfg expectedSender logs with
  | some m => .ok (some m)
  | none => fallbackMatch cfg expectedSender tx

/-- The confirmation count both validators compute:
`current - (receipt.blockNumber ?? current) + 1`. -/
def confirmationsOf (current : Int) (blockNumber : Option Int) : Int :=
  current - blockNumber.getD current + 1

/-- Embeds `UsdcService.validateIncomingTransfer`, as a function of the RPC
snapshot.  `Except.error ()` models an uncaught exception escaping the
call (possible only in the raw-call-data fallback). -/
def validateIncomingTransfer (cfg : UsdcConfig) (pv : ProviderView) (txHash : JStr)
    (expectedAmount6 : Int) (expectedSender : JStr) : Except Unit PurchaseValidationResult :=
  if cfg.tokenAddress.isEmpty then
    .ok ⟨false, some ("Token address not configured".toList), none, none, none, none, none⟩
  else
    match pv.receipt with
    | none => .ok ⟨false, some ("Transaction not found".toList), none, none, none, none, none⟩
    | some receipt =>
      if receipt.status ≠ some 1 then
        .ok ⟨false, some ("Transaction reverted".toList), some txHash, none, none, none, none⟩
      else
        match usdcMatchedTransfer cfg expectedSender receipt.logs pv.tx with
        | .error e => .error e
        | .ok none =>
          .ok ⟨false, some ("No matching USDC transfer to deposit wallet found".toList),
               some txHash, none, none, none, none⟩
        | .ok (some m) =>
          if m.value ≠ expectedAmount6 then
            .ok ⟨false, some ("Amount mismatch".toList), some txHash, none, none, none, none⟩
          else
            let confs := confirmationsOf pv.blockNumber receipt.blockNumber
            if confs < 1 then
              .ok ⟨false, some ("Not enough confirmations".toList), some txHash, some confs,
                   none, none, none⟩
            else
              .ok ⟨true, none, some txHash, some confs, some m.value, some m.fromAddr, some m.toAddr⟩

/-- The fields of `EthConfig` the embedded operations read.  The
constructor lower-cases the wallet addresses taken from the
environment. -/
structure EthConfig where
  depositWallet : JStr
  payoutWallet : JStr
deriving DecidableEq

namespace EthService

/-- Embeds `EthService.isBlockedAddress`, as a function of the raw
`BLOCKED_ETH_ADDRESSES` environment value: split on commas, trim and
lower-case each entry, drop empties, and test membership of the
lower-cased address. -/
def isBlockedAddress (blockedEnv : JStr) (address : JStr) : Bool :=
  let a := jsToLower address
  let fromEnv := ((jsSplit ',' blockedEnv).map fun s => jsToLower (jsTrim s)).filter
    fun s => ¬ s.isEmpty
  fromEnv.contains a

/-- Embeds `EthService.validateIncomingTransfer`, as a function of the RPC
snapshot; the native value transfer is read directly off the transaction
record (`tx.to`, `tx.from`, `tx.value`), with the blocked-recipient
check first. -/
def validateIncomingTransfer (cfg : EthConfig) (blockedEnv : JStr) (pv : ProviderView)
    (txHash : JStr) (expectedAmountWei : Int) (expectedSender : JStr) :
    PurchaseValidationResult :=
  match pv.receipt with
  | none => ⟨false, some ("Transaction not found".toList), none, none, none, none, none⟩
  | some receipt =>
    if receipt.status ≠ some 1 then
      ⟨false, some ("Transaction reverted".toList), some txHash, none, none, none, none⟩
    else
      match pv.tx with
      | none => ⟨false, some ("Transaction not found (tx)".toList), some txHash,
                 none, none, none, none⟩
      | some tx =>
        let toA := jsToLower (tx.toAddr.getD [])
        let fromA := jsToLower (tx.fromAddr.getD [])
        let value := tx.value.getD 0
        if isBlockedAddress blockedEnv toA then
          ⟨false, some ("Blocked recipient".toList), some txHash, none, none, none, none⟩
        else if toA ≠ cfg.depositWallet then
          ⟨false, some ("Wrong recipient".toList), some txHash, none, none, none, none⟩
        else if fromA ≠ jsToLower expectedSender then
          ⟨false, some ("Wrong sender".toList), some txHash, none, none, none, none⟩
        else if value ≠ expectedAmountWei then
          ⟨false, some ("Amount mismatch".toList), some txHash, none, none, none, none⟩
        else
          let confs := confirmationsOf pv.blockNumber receipt.blockNumber
          if confs < 1 then
            ⟨false, some ("Not enough confirmations".toList), some txHash, some confs,
             none, none, none⟩
          else
            ⟨true, none, some txHash, some confs, some value, some fromA, some toA⟩

end EthService

/-!
Key derivation and settlement.  BIP-32 derivation itself (ethers
`HDNodeWallet.fromPhrase(...).derivePath(...)` followed by
`getAddress()`) is cryptographic library code outside this repository;
it is abstracted as a function `deriveAddress : Nat → JStr` from the
account index to the derived address, a parameter of the embedded
operations.  A signer is identified by its account index.
-/

/-- Embeds `UsdcService.getDepositSigner` at `accountIndex`, observed through
the address of the signer it returns; `Except.error` is the thrown
configuration error when no seed phrase is set. -/
def getDepositSignerAddress (mnemonic : JStr) (deriveAddress : Nat → JStr)
    (accountIndex : Nat) : Except JStr JStr :=
  if mnemonic.isEmpty then .error ("USDC_MNEMONIC not configured".toList)
  else .ok (deriveAddress accountIndex)

/-- The scan loop of `UsdcService.resolveSignerForAddress`
(`for (let i = 0; i < 10; i++)`), started at `i`; returns the account
index of the resolved signer. -/
def resolveLoop (mnemonic : JStr) (deriveAddress : Nat → JStr) (addrLower : JStr)
    (i : Nat) : Except JStr Nat :=
  if _h : i < 10 then
    match getDepositSignerAddress mnemonic deriveAddress i with
    | .error e => .error e
    | .ok addr =>
      if jsToLower addr = addrLower then .ok i
      else resolveLoop mnemonic deriveAddress addrLower (i + 1)
  else .error ("Mnemonic does not derive the expected wallet address".toList)
  termination_by 10 - i

/-- Embeds `UsdcService.resolveSignerForAddress`: lower-case the target, scan
account indices 0 through 9 for the first whose derived address matches,
and throw when none does. -/
def resolveSignerForAddress (mnemonic : JStr) (deriveAddress : Nat → JStr)
    (targetAddress : JStr) : Except JStr Nat :=
  resolveLoop mnemonic deriveAddress (jsToLower targetAddress) 0

/-- An on-chain action performed by `sweepToPayout`; the trace of these
actions is the observable effect of a call on the chain. -/
inductive ChainAction where
  /-- A signer resolution (`resolveSignerForAddress`), which touches no
  chain state. -/
  | resolveSigner (target : JStr)
  /-- A broadcast token transfer `usdc.transfer(to, amount)`. -/
  | broadcastTransfer (toA : JStr) (amount : Int)
deriving DecidableEq

/-- Embeds `UsdcService.sweepToPayout`, with the current token balance of
`fromAddress` (the `balanceOf` response) and the broadcast outcome (the
assigned transaction hash and the awaited receipt status) as inputs, and
the trace of chain actions as a second output.  Result:
`.ok none` models `return null`, `.ok (some h)` models `return tx.hash`,
`.error` models a thrown error. -/
def sweepToPayout (cfg : UsdcConfig) (mnemonic : JStr) (deriveAddress : Nat → JStr)
    (fromAddress : JStr) (balance : Int) (txHash : JStr) (rcStatus : Option Int) :
    Except JStr (Option JStr) × List ChainAction :=
  if balance = 0 then (.ok none, [])
  else
    match resolveSignerForAddress mnemonic deriveAddress fromAddress with
    | .error e => (.error e, [ChainAction.resolveSigner fromAddress])
    | .ok _ =>
      let acts := [ChainAction.resolveSigner fromAddress,
                   ChainAction.broadcastTransfer cfg.payoutWallet balance]
      if rcStatus ≠ some 1 then (.error ("Sweep transfer failed".toList), acts)
      else (.ok (some txHash), acts)

/-!
Concrete fixtures: a small deployment (token contract, deposit wallet,
sender) and RPC snapshots, used to evaluate the theorems on explicit
inputs.  The deposit wallet is a 20-byte (40 hex character) address so
that the raw-call-data decoding path can be exercised literally.
-/

/-- A 40-hex-character deposit wallet address, `0x111...1`. -/
def exDeposit : JStr := '0' :: 'x' :: List.replicate 40 '1'

/-- An example chain configuration for the token service. -/
def exCfg : UsdcConfig :=
  { tokenAddress := "0xtok".toList, depositWallet := exDeposit,
    payoutWallet := "0xpay".toList }

/-- An example chain configuration for the native-asset service. -/
def exEthCfg : EthConfig :=
  { depositWallet := exDeposit, payoutWallet := "0xpay".toList }

/-- A receipt carrying one decodable Transfer log from the token
contract: sender `0xabc`, recipient the deposit wallet, value 1000000. -/
def exReceipt : ReceiptView :=
  { status := some 1, blockNumber := some 5,
    logs := [{ address := "0xtok".toList,
               parsed := some { name := "Transfer".toList, arg0 := "0xabc".toList,
                                arg1 := exDeposit, arg2 := 1000000 } }] }

/-- Call data of `transfer(depositWallet, 5)`: the 4-byte selector, the
recipient slot (12 zero bytes then the 20 address bytes), the value
slot. -/
def exCallData : JStr :=
  "0xa9059cbb".toList ++ List.replicate 24 '0' ++ List.replicate 40 '1' ++
    (List.replicate 63 '0' ++ ['5'])

/-- A transaction record invoking `transfer` on the token contract from
sender `0xabc`. -/
def exTx : TxView :=
  { toAddr := some ("0xtok".toList), fromAddr := some ("0xabc".toList),
    data := exCallData, value := some 0 }

/-- An RPC snapshot whose receipt carries the matching Transfer log. -/
def exView : ProviderView :=
  { receipt := some exReceipt, tx := none, blockNumber := 7 }

/-- An RPC snapshot with a reverted receipt that still carries the
matching Transfer log and a decodable transfer call. -/
def exRevertedView : ProviderView :=
  { receipt := some { exReceipt with status := some 0 }, tx := some exTx,
    blockNumber := 7 }

/-- An RPC snapshot whose receipt has no logs but whose transaction
record is the raw `transfer` call (fallback path). -/
def exFallbackView : ProviderView :=
  { receipt := some { status := some 1, blockNumber := some 5, logs := [] },
    tx := some exTx, blockNumber := 7 }

/-- An RPC snapshot whose receipt carries the matching Transfer log but
no block number. -/
def exNoBlockView : ProviderView :=
  { receipt := some { status := some 1, blockNumber := none, logs := exReceipt.logs },
    tx := none, blockNumber := 7 }

/-- A native-asset transaction record: sender `0xabc` pays the deposit
wallet 1000000 wei. -/
def exEthTx : TxView :=
  { toAddr := some exDeposit, fromAddr := some ("0xabc".toList),
    data := "0x".toList, value := some 1000000 }

/-- An RPC snapshot for the native-asset validator. -/
def exEthView : ProviderView :=
  { receipt := some { status := some 1, blockNumber := some 5, logs := [] },
    tx := some exEthTx, blockNumber := 7 }

/-- An example derivation map: account index 3 derives `0xABC`, every
other index derives `0xFFF`. -/
def exDerive : Nat → JStr :=
  fun i => if i = 3 then "0xABC".toList else "0xFFF".toList

/-- A derivation map none of whose first ten indices derives `0xabc`. -/
def exDeriveMiss : Nat → JStr :=
  fun i => if i < 10 then "0xFFF".toList else "0xabc".toList

/-! Facts about the decimal printer and parser, leading to the round-trip
property of the unit conversion. -/

theorem natToDigitsGo_append (fuel : Nat) : ∀ (n : Nat) (acc : JStr), n < fuel →
    natToDigitsGo fuel n acc = natToDigitsGo fuel n [] ++ acc := by
  induction fuel with
  | zero => intro n acc h; omega
  | succ fuel ih =>
    intro n acc h
    by_cases h10 : n < 10
    · simp [natToDigitsGo, h10]
    · have hdiv : n / 10 < fuel := by
        have : n / 10 < n := Nat.div_lt_self (by omega) (by omega)
        omega
      simp only [natToDigitsGo]
      rw [if_neg h10, if_neg h10,
        ih (n / 10) (Nat.digitChar (n % 10) :: acc) hdiv,
        ih (n / 10) [Nat.digitChar (n % 10)] hdiv, List.append_assoc,
        List.singleton_append]

theorem natToDigits_eq (n : Nat) : natToDigits n =
    if n < 10 then [Nat.digitChar n]
    else natToDigits (n / 10) ++ [Nat.digitChar (n % 10)] := by
  have key : ∀ n fuel, n < fuel → natToDigitsGo fuel n [] = natToDigits n := by
    intro n
    induction n using Nat.strong_induction_on with
    | _ n ih =>
      intro fuel hf
      match fuel with
      | fuel + 1 =>
        by_cases h10 : n < 10
        · simp [natToDigitsGo, natToDigits, h10]
        · have hlt : n / 10 < n := Nat.div_lt_self (by omega) (by omega)
          have h1 : n / 10 < fuel := by omega
          simp only [natToDigitsGo]
          rw [if_neg h10]
          conv_rhs => rw [natToDigits]
          simp only [natToDigitsGo]
          rw [if_neg h10, natToDigitsGo_append fuel _ _ h1,
            natToDigitsGo_append n _ _ (by omega), ih _ hlt fuel h1, ih _ hlt n (by omega)]
  by_cases h10 : n < 10
  · simp [natToDigits, natToDigitsGo, h10]
  · have hlt : n / 10 < n := Nat.div_lt_self (by omega) (by omega)
    rw [if_neg h10]
    conv_lhs => rw [natToDigits]
    simp only [natToDigitsGo]
    rw [if_neg h10, natToDigitsGo_append n _ _ (by omega), key _ n (by omega)]

theorem digitChar_isDigit {d : Nat} (h : d < 10) : (Nat.digitChar d).isDigit = true := by
  interval_cases d <;> decide

theorem digitVal_digitChar {d : Nat} (h : d < 10) : digitVal (Nat.digitChar d) = d := by
  interval_cases d <;> decide

theorem natToDigits_ne_nil (n : Nat) : natToDigits n ≠ [] := by
  rw [natToDigits_eq]
  by_cases h10 : n < 10 <;> simp [h10]

theorem natToDigits_all_digit (n : Nat) : ∀ c ∈ natToDigits n, c.isDigit = true := by
  induction n using Nat.strong_induction_on with
  | _ n ih =>
    rw [natToDigits_eq]
    by_cases h10 : n < 10
    · simp only [if_pos h10, List.mem_singleton]
      rintro c rfl
      exact digitChar_isDigit h10
    · simp only [if_neg h10, List.mem_append, List.mem_singleton]
      rintro c (hc | rfl)
      · exact ih (n / 10) (Nat.div_lt_self (by omega) (by omega)) c hc
      · exact digitChar_isDigit (Nat.mod_lt n (by omega))

theorem foldl_natToDigits (n : Nat) : ∀ a : Nat,
    (natToDigits n).foldl (fun a c => a * 10 + digitVal c) a =
      a * 10 ^ (natToDigits n).length + n := by
  induction n using Nat.strong_induction_on with
  | _ n ih =>
    intro a
    rw [natToDigits_eq]
    by_cases h10 : n < 10
    · simp [if_pos h10, List.foldl, digitVal_digitChar h10]
    · have hlt : n / 10 < n := Nat.div_lt_self (by omega) (by omega)
      simp only [if_neg h10, List.foldl_append, List.foldl, List.length_append,
        List.length_singleton]
      rw [ih (n / 10) hlt a, digitVal_digitChar (Nat.mod_lt n (by omega))]
      have : 10 * (n / 10) + n % 10 = n := Nat.div_add_mod n 10
      ring_nf
      omega

theorem parseNatDigits_natToDigits (n : Nat) : parseNatDigits (natToDigits n) = some n := by
  have hne : natToDigits n ≠ [] := natToDigits_ne_nil n
  have hall : (natToDigits n).all Char.isDigit = true := by
    rw [List.all_eq_true]; exact natToDigits_all_digit n
  rw [parseNatDigits, if_neg (by simpa [List.isEmpty_iff] using hne), if_pos hall,
    foldl_natToDigits n 0]
  simp

theorem foldl_replicate_zeros (k : Nat) :
    (List.replicate k '0').foldl (fun a c => a * 10 + digitVal c) 0 = 0 := by
  induction k with
  | zero => rfl
  | succ k ih => simpa [List.replicate_succ, digitVal] using ih

theorem parseNatDigits_zeros_append (k n : Nat) :
    parseNatDigits (List.replicate k '0' ++ natToDigits n) = some n := by
  have hall : (List.replicate k '0' ++ natToDigits n).all Char.isDigit = true := by
    rw [List.all_eq_true]
    intro c hc
    rcases List.mem_append.mp hc with hc | hc
    · rw [List.eq_of_mem_replicate hc]; decide
    · exact natToDigits_all_digit n c hc
  have hne : List.replicate k '0' ++ natToDigits n ≠ [] := by
    simp [natToDigits_ne_nil n]
  rw [parseNatDigits, if_neg (by simpa [List.isEmpty_iff] using hne), if_pos hall,
    List.foldl_append, foldl_replicate_zeros, foldl_natToDigits n 0]
  simp

theorem head_digit_ne_sign {c : Char} (h : c.isDigit = true) : c ≠ '-' ∧ c ≠ '+' := by
  constructor <;> rintro rfl <;> simp [Char.isDigit] at h

theorem parseBigInt_of_digits {cs : JStr} {n : Nat} (hne : cs ≠ [])
    (hall : ∀ c ∈ cs, c.isDigit = true) (hp : parseNatDigits cs = some n) :
    parseBigInt cs = some ((n : Nat) : Int) := by
  match cs with
  | c :: rest =>
    have hd := hall c (List.mem_cons_self c rest)
    obtain ⟨h1, h2⟩ := head_digit_ne_sign hd
    rw [parseBigInt, if_neg h1, if_neg h2, hp]

theorem natToDigits_length_le {n p : Nat} (hp : 1 ≤ p) (h : n < 10 ^ p) :
    (natToDigits n).length ≤ p := by
  induction n using Nat.strong_induction_on generalizing p with
  | _ n ih =>
    rw [natToDigits_eq]
    by_cases h10 : n < 10
    · rw [if_pos h10]; simpa using hp
    · have hlt : n / 10 < n := Nat.div_lt_self (by omega) (by omega)
      have hp2 : 2 ≤ p := by
        by_contra hc
        have : p = 1 := by omega
        subst this
        simp at h
        omega
      have hdiv : n / 10 < 10 ^ (p - 1) := by
        rw [Nat.div_lt_iff_lt_mul (by omega)]
        have : 10 ^ (p - 1) * 10 = 10 ^ p := by
          rw [← pow_succ]
          congr 1
          omega
        omega
      have := ih (n / 10) hlt (by omega) hdiv
      simp only [if_neg h10, List.length_append, List.length_singleton]
      omega

theorem digit_ne_dot {c : Char} (h : c.isDigit = true) : c ≠ '.' := by
  rintro rfl
  simp [Char.isDigit] at h

theorem jsSplit_ne_nil (sep : Char) (s : JStr) : jsSplit sep s ≠ [] := by
  induction s with
  | nil => simp [jsSplit]
  | cons c rest ih =>
    simp only [jsSplit]
    cases hj : jsSplit sep rest with
    | nil => exact absurd hj ih
    | cons hh tt => by_cases hc : c = sep <;> simp [hc]

theorem jsSplit_of_not_mem {sep : Char} {s : JStr} (h : sep ∉ s) : jsSplit sep s = [s] := by
  induction s with
  | nil => rfl
  | cons c rest ih =>
    have hc : c ≠ sep := by
      rintro rfl
      exact h (List.mem_cons_self _ _)
    have hrest : sep ∉ rest := fun hh => h (List.mem_cons_of_mem c hh)
    simp only [jsSplit, ih hrest]
    simp [hc]

theorem jsSplit_append {sep : Char} {a : JStr} (b : JStr) (h : sep ∉ a) :
    jsSplit sep (a ++ sep :: b) = a :: jsSplit sep b := by
  induction a with
  | nil =>
    simp only [List.nil_append, jsSplit]
    cases hj : jsSplit sep b with
    | nil => exact absurd hj (jsSplit_ne_nil sep b)
    | cons hh tt => simp [← hj]
  | cons c a ih =>
    have hc : c ≠ sep := by
      rintro rfl
      exact h (List.mem_cons_self _ _)
    have ha : sep ∉ a := fun hh => h (List.mem_cons_of_mem c hh)
    simp only [List.cons_append, jsSplit, List.append_eq]
    rw [ih ha]
    simp [hc]

theorem parseBigInt_zeros_natToDigits (k n : Nat) :
    parseBigInt (List.replicate k '0' ++ natToDigits n) = some ((n : Nat) : Int) := by
  have hne : List.replicate k '0' ++ natToDigits n ≠ [] := by
    simp [natToDigits_ne_nil n]
  have hall : ∀ c ∈ List.replicate k '0' ++ natToDigits n, c.isDigit = true := by
    intro c hc
    rcases List.mem_append.mp hc with hc | hc
    · rw [List.eq_of_mem_replicate hc]; decide
    · exact natToDigits_all_digit n c hc
  exact parseBigInt_of_digits hne hall (parseNatDigits_zeros_append k n)

theorem parseBigInt_natToDigits (n : Nat) : parseBigInt (natToDigits n) = some ((n : Nat) : Int) := by
  have := parseBigInt_zeros_natToDigits 0 n
  simpa using this

theorem intToDigits_ofNat (n : Nat) : intToDigits ((n : Nat) : Int) = natToDigits n := by
  rw [intToDigits, if_neg (by omega)]
  simp

/-- Round trip of the fixed-point conversion at any positive precision:
converting a non-negative minor-unit integer to its decimal string and
back is the identity. -/
theorem toUnitCore_fromUnitCore {p : Nat} (hp : 1 ≤ p) (x : Nat) :
    toUnitCore p (fromUnitCore p ((x : Nat) : Int)) = some ((x : Nat) : Int) := by
  have hpow : ((10 : Int) ^ p) = ((10 ^ p : Nat) : Int) := by push_cast; ring
  have hppos : 0 < 10 ^ p := pow_pos (by omega) p
  have hrlt : x % 10 ^ p < 10 ^ p := Nat.mod_lt _ hppos
  have hlenr : (natToDigits (x % 10 ^ p)).length ≤ p := natToDigits_length_le hp hrlt
  have hfrom : fromUnitCore p ((x : Nat) : Int) =
      natToDigits (x / 10 ^ p) ++ '.' ::
        (List.replicate (p - (natToDigits (x % 10 ^ p)).length) '0' ++ natToDigits (x % 10 ^ p)) := by
    simp only [fromUnitCore, hpow]
    rw [show (x : Int).tdiv (((10 ^ p : Nat) : Int)) = ((x / 10 ^ p : Nat) : Int) from rfl,
      show (x : Int).tmod (((10 ^ p : Nat) : Int)) = ((x % 10 ^ p : Nat) : Int) from rfl,
      intToDigits_ofNat, intToDigits_ofNat, jsPadStart]
  have hdotq : '.' ∉ natToDigits (x / 10 ^ p) := fun hmem =>
    digit_ne_dot (natToDigits_all_digit _ _ hmem) rfl
  have hdotR : '.' ∉ List.replicate (p - (natToDigits (x % 10 ^ p)).length) '0' ++
      natToDigits (x % 10 ^ p) := by
    intro hmem
    rcases List.mem_append.mp hmem with hmem | hmem
    · exact absurd (List.eq_of_mem_replicate hmem) (by decide)
    · exact digit_ne_dot (natToDigits_all_digit _ _ hmem) rfl
  have hRlen : (List.replicate (p - (natToDigits (x % 10 ^ p)).length) '0' ++
      natToDigits (x % 10 ^ p)).length = p := by
    simp only [List.length_append, List.length_replicate]
    omega
  rw [hfrom]
  simp only [toUnitCore, jsSplit_append _ hdotq, jsSplit_of_not_mem hdotR]
  simp only [List.headD, List.drop]
  have hqne : ¬ (natToDigits (x / 10 ^ p)).isEmpty = true := by
    simp [natToDigits_ne_nil]
  have hRne : ¬ (List.replicate (p - (natToDigits (x % 10 ^ p)).length) '0' ++
      natToDigits (x % 10 ^ p)).isEmpty = true := by
    simp [natToDigits_ne_nil]
  rw [if_neg hqne]
  have hpad : jsPadEnd (List.replicate (p - (natToDigits (x % 10 ^ p)).length) '0' ++
      natToDigits (x % 10 ^ p)) p '0' =
      List.replicate (p - (natToDigits (x % 10 ^ p)).length) '0' ++
        natToDigits (x % 10 ^ p) := by
    simp [jsPadEnd, hRlen]
  have hslice : jsSlice (List.replicate (p - (natToDigits (x % 10 ^ p)).length) '0' ++
      natToDigits (x % 10 ^ p)) 0 p =
      List.replicate (p - (natToDigits (x % 10 ^ p)).length) '0' ++
        natToDigits (x % 10 ^ p) := by
    simp [jsSlice, List.take_of_length_le (le_of_eq hRlen)]
  rw [hpad, hslice, if_neg hRne, parseBigInt_natToDigits, parseBigInt_zeros_natToDigits]
  simp only [Option.some.injEq]
  have final := Int.ediv_add_emod (x : Int) ((10 : Int) ^ p)
  push_cast
  linarith

/-! Facts about split fragments, sign-free parses, and the index-scan
loop of signer resolution. -/

theorem jsSplit_cons_eq (sep c0 : Char) (rest : JStr) (h : JStr) (tt : List JStr)
    (hj : jsSplit sep rest = h :: tt) :
    jsSplit sep (c0 :: rest) = if c0 = sep then [] :: h :: tt else (c0 :: h) :: tt := by
  simp only [jsSplit, hj]

theorem jsSplit_fragment_subset {sep : Char} : ∀ {s t : JStr}, t ∈ jsSplit sep s →
    ∀ {c : Char}, c ∈ t → c ∈ s := by
  intro s
  induction s with
  | nil =>
    intro t ht c hc
    simp [jsSplit] at ht
    subst ht
    simp at hc
  | cons c0 rest ih =>
    intro t ht c hc
    cases hj : jsSplit sep rest with
    | nil => exact absurd hj (jsSplit_ne_nil sep rest)
    | cons h tt =>
      rw [jsSplit_cons_eq sep c0 rest h tt hj] at ht
      by_cases hc0 : c0 = sep
      · rw [if_pos hc0] at ht
        rcases List.mem_cons.mp ht with rfl | ht
        · simp at hc
        · exact List.mem_cons_of_mem c0 (ih (hj ▸ ht) hc)
      · rw [if_neg hc0] at ht
        rcases List.mem_cons.mp ht with rfl | ht
        · rcases List.mem_cons.mp hc with rfl | hc
          · exact List.mem_cons_self _ _
          · exact List.mem_cons_of_mem c0 (ih (hj ▸ List.mem_cons_self h tt) hc)
        · exact List.mem_cons_of_mem c0 (ih (hj ▸ List.mem_cons_of_mem h ht) hc)

theorem parseBigInt_nonneg {s : JStr} (hs : ∀ c ∈ s, c ≠ '-') {v : Int}
    (h : parseBigInt s = some v) : 0 ≤ v := by
  match s with
  | [] =>
    simp [parseBigInt] at h
    omega
  | c :: rest =>
    have hc : c ≠ '-' := hs c (List.mem_cons_self _ _)
    rw [parseBigInt, if_neg hc] at h
    by_cases hplus : c = '+'
    · rw [if_pos hplus] at h
      rcases hpn : parseNatDigits rest with _ | n
      · rw [hpn] at h
        simp at h
      · rw [hpn] at h
        simp only [Option.some.injEq] at h
        omega
    · rw [if_neg hplus] at h
      rcases hpn : parseNatDigits (c :: rest) with _ | n
      · rw [hpn] at h
        simp at h
      · rw [hpn] at h
        simp only [Option.some.injEq] at h
        omega

theorem toUnitCore_nonneg {p : Nat} {s : JStr} (hs : ∀ c ∈ s, c ≠ '-') {v : Int}
    (h : toUnitCore p s = some v) : 0 ≤ v := by
  simp only [toUnitCore] at h
  set intPart := (jsSplit '.' s).headD [] with hip
  set fracPartRaw := ((jsSplit '.' s).drop 1).headD [] with hfp
  have hmemIntPart : ∀ c ∈ intPart, c ∈ s := by
    intro c hc
    rw [hip] at hc
    cases hj : jsSplit '.' s with
    | nil => exact absurd hj (jsSplit_ne_nil '.' s)
    | cons hh tt =>
      rw [hj] at hc
      exact jsSplit_fragment_subset (hj ▸ List.mem_cons_self hh tt) hc
  have hmemFrac : ∀ c ∈ fracPartRaw, c ∈ s := by
    intro c hc
    rw [hfp] at hc
    cases hd : (jsSplit '.' s).drop 1 with
    | nil => rw [hd] at hc; simp at hc
    | cons hh tt =>
      rw [hd] at hc
      have : hh ∈ jsSplit '.' s := List.drop_subset 1 _ (hd ▸ List.mem_cons_self hh tt)
      exact jsSplit_fragment_subset this hc
  have hA : ∀ c ∈ (if intPart.isEmpty then ['0'] else intPart), c ≠ '-' := by
    intro c hc
    by_cases he : intPart.isEmpty
    · rw [if_pos he] at hc
      simp at hc
      subst hc
      decide
    · rw [if_neg he] at hc
      exact hs c (hmemIntPart c hc)
  have hB : ∀ c ∈ (if (jsSlice (jsPadEnd fracPartRaw p '0') 0 p).isEmpty then ['0']
      else jsSlice (jsPadEnd fracPartRaw p '0') 0 p), c ≠ '-' := by
    intro c hc
    by_cases he : (jsSlice (jsPadEnd fracPartRaw p '0') 0 p).isEmpty
    · rw [if_pos he] at hc
      simp at hc
      subst hc
      decide
    · rw [if_neg he] at hc
      have hc2 : c ∈ jsPadEnd fracPartRaw p '0' := by
        have := List.take_subset (p - 0) (jsPadEnd fracPartRaw p '0')
        exact this (by simpa [jsSlice] using hc)
      rcases List.mem_append.mp hc2 with hc2 | hc2
      · exact hs c (hmemFrac c hc2)
      · rw [List.eq_of_mem_replicate hc2]
        decide
  cases hpa : parseBigInt (if intPart.isEmpty then ['0'] else intPart) with
  | none => rw [hpa] at h; simp at h
  | some a =>
    cases hpb : parseBigInt (if (jsSlice (jsPadEnd fracPartRaw p '0') 0 p).isEmpty then ['0']
        else jsSlice (jsPadEnd fracPartRaw p '0') 0 p) with
    | none => rw [hpa, hpb] at h; simp at h
    | some b =>
      rw [hpa, hpb] at h
      simp only [Option.some.injEq] at h
      have ha := parseBigInt_nonneg hA hpa
      have hb := parseBigInt_nonneg hB hpb
      have hpow : (0:Int) ≤ (10:Int) ^ p := by positivity
      nlinarith [h]

theorem resolveLoop_unfold {mnemonic : JStr} (hm : mnemonic ≠ []) (d : Nat → JStr)
    (aL : JStr) (i : Nat) (hi : i < 10) :
    resolveLoop mnemonic d aL i =
      if jsToLower (d i) = aL then .ok i else resolveLoop mnemonic d aL (i + 1) := by
  rw [resolveLoop, dif_pos hi, getDepositSignerAddress,
    if_neg (by simpa [List.isEmpty_iff] using hm)]

theorem resolveLoop_past_end {mnemonic : JStr} (d : Nat → JStr) (aL : JStr) (i : Nat)
    (hi : ¬ i < 10) :
    resolveLoop mnemonic d aL i =
      .error ("Mnemonic does not derive the expected wallet address".toList) := by
  rw [resolveLoop, dif_neg hi]

theorem resolveLoop_ok_iff {mnemonic : JStr} (hm : mnemonic ≠ []) (d : Nat → JStr)
    (aL : JStr) : ∀ n i j, 10 - i = n →
    (resolveLoop mnemonic d aL i = .ok j ↔
      (i ≤ j ∧ j < 10 ∧ jsToLower (d j) = aL ∧
        ∀ k, i ≤ k → k < j → jsToLower (d k) ≠ aL)) := by
  intro n
  induction n with
  | zero =>
    intro i j hn
    rw [resolveLoop_past_end d aL i (by omega)]
    constructor
    · intro h
      simp at h
    · rintro ⟨h1, h2, _, _⟩
      omega
  | succ n ih =>
    intro i j hn
    have hi : i < 10 := by omega
    rw [resolveLoop_unfold hm d aL i hi]
    by_cases hhit : jsToLower (d i) = aL
    · rw [if_pos hhit]
      constructor
      · intro h
        simp only [Except.ok.injEq] at h
        subst h
        exact ⟨le_refl i, hi, hhit, fun k hk1 hk2 => absurd hk2 (by omega)⟩
      · rintro ⟨h1, h2, h3, h4⟩
        by_cases hij : i = j
        · simp [hij]
        · exact absurd hhit (h4 i (le_refl i) (by omega))
    · rw [if_neg hhit]
      rw [ih (i + 1) j (by omega)]
      constructor
      · rintro ⟨h1, h2, h3, h4⟩
        refine ⟨by omega, h2, h3, fun k hk1 hk2 => ?_⟩
        by_cases hki : k = i
        · subst hki; exact hhit
        · exact h4 k (by omega) hk2
      · rintro ⟨h1, h2, h3, h4⟩
        have hij : i ≠ j := by
          rintro rfl
          exact hhit h3
        exact ⟨by omega, h2, h3, fun k hk1 hk2 => h4 k (by omega) hk2⟩

theorem resolveLoop_none {mnemonic : JStr} (hm : mnemonic ≠ []) (d : Nat → JStr)
    (aL : JStr) : ∀ n i, 10 - i = n →
    (∀ k, i ≤ k → k < 10 → jsToLower (d k) ≠ aL) →
    resolveLoop mnemonic d aL i =
      .error ("Mnemonic does not derive the expected wallet address".toList) := by
  intro n
  induction n with
  | zero =>
    intro i hn _
    exact resolveLoop_past_end d aL i (by omega)
  | succ n ih =>
    intro i hn hmiss
    have hi : i < 10 := by omega
    rw [resolveLoop_unfold hm d aL i hi,
      if_neg (hmiss i (le_refl i) hi)]
    exact ih (i + 1) (by omega) (fun k hk1 hk2 => hmiss k (by omega) hk2)

theorem resolveLoop_congr (mnemonic : JStr) (d d2 : Nat → JStr) (aL : JStr) :
    ∀ n i, 10 - i = n → (∀ k, i ≤ k → k < 10 → d k = d2 k) →
    resolveLoop mnemonic d aL i = resolveLoop mnemonic d2 aL i := by
  intro n
  induction n with
  | zero =>
    intro i hn _
    rw [resolveLoop_past_end d aL i (by omega), resolveLoop_past_end d2 aL i (by omega)]
  | succ n ih =>
    intro i hn hagree
    have hi : i < 10 := by omega
    by_cases hm : mnemonic = []
    · subst hm
      have hempty : ∀ e : Nat → JStr, resolveLoop [] e aL i =
          .error ("USDC_MNEMONIC not configured".toList) := by
        intro e
        rw [resolveLoop, dif_pos hi]
        rfl
      rw [hempty d, hempty d2]
    · rw [resolveLoop_unfold hm d aL i hi, resolveLoop_unfold hm d2 aL i hi,
        hagree i (le_refl i) hi, ih (i + 1) (by omega) (fun k hk1 hk2 => hagree k (by omega) hk2)]

/-! The claims. -/

/-- Claim C3: for every non-negative integer x and precision p in {6, 18},
converting x to a decimal string with fromMinorUnits (`fromUnit6` /
`EthService.fromWei`) and back with toMinorUnits (`toUnit6` /
`EthService.toWei`) returns exactly x: the round trip is the identity on
minor-unit amounts. -/
theorem C3_unit_conversion_roundtrip (x : Nat) :
    toUnit6 (fromUnit6 ((x : Nat) : Int)) = some ((x : Nat) : Int) ∧
    EthService.toWei (EthService.fromWei ((x : Nat) : Int)) = some ((x : Nat) : Int) :=
  ⟨toUnitCore_fromUnitCore (by omega) x, toUnitCore_fromUnitCore (by omega) x⟩

/-- Claim C6: toMinorUnits splits the decimal string on the decimal point,
right-pads the fractional part with zeros to exactly the precision,
truncates (never rounds) digits beyond the precision, and returns
integerPart * 10^precision + fractionalPartAsInteger; in particular
`toUnit6 "1.2345678" = 1234567` and `toUnit6 "5" = 5000000`. -/
theorem C6_toMinorUnits_algorithm :
    (∀ (p : Nat) (ip fp : JStr) (a b : Nat), 1 ≤ p → ip ≠ [] →
      (∀ c ∈ ip, c.isDigit = true) → (∀ c ∈ fp, c.isDigit = true) →
      parseNatDigits ip = some a →
      parseNatDigits (jsSlice (jsPadEnd fp p '0') 0 p) = some b →
      toUnitCore p (ip ++ '.' :: fp) = some (((a : Nat) : Int) * (10 : Int) ^ p + ((b : Nat) : Int))) ∧
    toUnit6 ("1.2345678".toList) = some 1234567 ∧
    toUnit6 ("5".toList) = some 5000000 := by
  refine ⟨?_, by decide, by decide⟩
  intro p ip fp a b hp hipne hip hfp ha hb
  have hdotip : '.' ∉ ip := fun hmem => digit_ne_dot (hip _ hmem) rfl
  have hdotfp : '.' ∉ fp := fun hmem => digit_ne_dot (hfp _ hmem) rfl
  have hsplit : jsSplit '.' (ip ++ '.' :: fp) = [ip, fp] := by
    rw [jsSplit_append fp hdotip, jsSplit_of_not_mem hdotfp]
  simp only [toUnitCore, hsplit, List.headD, List.drop]
  have hipe : ¬ ip.isEmpty = true := by simpa [List.isEmpty_iff] using hipne
  rw [if_neg hipe]
  have hfracne : ¬ (jsSlice (jsPadEnd fp p '0') 0 p).isEmpty = true := by
    have hlen : (jsSlice (jsPadEnd fp p '0') 0 p).length = p := by
      simp only [jsSlice, jsPadEnd, List.drop_zero, List.length_take, List.length_append,
        List.length_replicate]
      omega
    simp only [List.isEmpty_iff]
    intro hempty
    rw [hempty] at hlen
    simp at hlen
    omega
  rw [if_neg hfracne]
  have hfall : ∀ c ∈ jsSlice (jsPadEnd fp p '0') 0 p, c.isDigit = true := by
    intro c hc
    have hc2 : c ∈ jsPadEnd fp p '0' := by
      have := List.take_subset (p - 0) (jsPadEnd fp p '0')
      exact this (by simpa [jsSlice] using hc)
    rcases List.mem_append.mp hc2 with hc2 | hc2
    · exact hfp c hc2
    · rw [List.eq_of_mem_replicate hc2]; decide
  rw [parseBigInt_of_digits hipne hip ha,
    parseBigInt_of_digits (by simpa [List.isEmpty_iff] using hfracne) hfall hb]

/-- Claim C8: sweeping an address whose current token balance is zero returns
null and performs no chain action at all: no signer resolution and no
broadcast transfer appear in the action trace, so the chain state is
left unchanged. -/
theorem C8_sweep_zero_balance_noop (cfg : UsdcConfig) (mnemonic : JStr)
    (deriveAddress : Nat → JStr) (fromAddress txHash : JStr) (rcStatus : Option Int) :
    sweepToPayout cfg mnemonic deriveAddress fromAddress 0 txHash rcStatus =
      (.ok none, []) := by
  rw [sweepToPayout, if_pos rfl]

/-- Claim C9 counterexample: `toUnit6` accepts the decimal string `"-1.5"`
(every BigInt conversion in it succeeds) and returns the negative
minor-unit amount -500000, so a returned MinorUnitAmount is not always
non-negative. -/
theorem C9_counterexample :
    toUnit6 ("-1.5".toList) = some (-500000) ∧ ¬ (0 ≤ (-500000 : Int)) := by
  exact ⟨by decide, by decide⟩

/-- Claim C9 (amended): for every decimal input accepted by toMinorUnits that
contains no minus sign, the returned minor-unit integer is non-negative,
at precision 6 (`toUnit6`) and at precision 18 (`EthService.toWei`);
inputs with a minus sign are also accepted and can return negative
values. -/
theorem C9_nonneg_for_unsigned_inputs (s : JStr) (hs : ∀ c ∈ s, c ≠ '-') (v : Int) :
    (toUnit6 s = some v → 0 ≤ v) ∧ (EthService.toWei s = some v → 0 ≤ v) :=
  ⟨fun h => toUnitCore_nonneg hs h, fun h => toUnitCore_nonneg hs h⟩

/-- Witness for C6 at `p = 6`, `"1.2345678"`. -/
theorem C6_witness :
    toUnitCore 6 ("1".toList ++ '.' :: "2345678".toList) =
      some (((1 : Nat) : Int) * (10 : Int) ^ 6 + ((234567 : Nat) : Int)) :=
  C6_toMinorUnits_algorithm.1 6 ("1".toList) ("2345678".toList) 1 234567 (by decide)
    (by decide) (by decide) (by decide) (by decide) (by decide)

/-- Witness for the amended C9 at the unsigned input `"5"`. -/
theorem C9_witness : (0 : Int) ≤ 5000000 :=
  (C9_nonneg_for_unsigned_inputs ("5".toList) (by decide) 5000000).1 (by decide)

/-- Claim C2: for every transaction whose mined receipt status is not success,
both validators (token and native, given their configuration
prerequisites) return the TransactionReverted failure, whatever the
receipt logs, the transaction record and its value contain: no later
matching step is reached. -/
theorem C2_reverted_short_circuits (cfg : UsdcConfig) (ecfg : EthConfig)
    (blockedEnv : JStr) (pv : ProviderView) (txHash expectedSender : JStr) (amt : Int)
    (rec : ReceiptView) (hcfg : cfg.tokenAddress ≠ []) (hrec : pv.receipt = some rec)
    (hst : rec.status ≠ some 1) :
    validateIncomingTransfer cfg pv txHash amt expectedSender =
      .ok ⟨false, some ("Transaction reverted".toList), some txHash, none, none, none, none⟩ ∧
    EthService.validateIncomingTransfer ecfg blockedEnv pv txHash amt expectedSender =
      ⟨false, some ("Transaction reverted".toList), some txHash, none, none, none, none⟩ := by
  constructor
  · simp only [validateIncomingTransfer, hrec]
    rw [if_neg (by simpa [List.isEmpty_iff] using hcfg), if_pos hst]
  · simp only [EthService.validateIncomingTransfer, hrec]
    rw [if_pos hst]

/-- Witness for C2: a reverted receipt (status 0) that still carries a
matching Transfer log and a decodable transfer call. -/
theorem C2_witness :
    validateIncomingTransfer exCfg exRevertedView ("0xhash".toList) 1000000 ("0xabc".toList) =
      .ok ⟨false, some ("Transaction reverted".toList), some ("0xhash".toList),
           none, none, none, none⟩ ∧
    EthService.validateIncomingTransfer exEthCfg [] exRevertedView ("0xhash".toList) 1000000
        ("0xabc".toList) =
      ⟨false, some ("Transaction reverted".toList), some ("0xhash".toList),
       none, none, none, none⟩ :=
  C2_reverted_short_circuits exCfg exEthCfg [] exRevertedView ("0xhash".toList) ("0xabc".toList)
    1000000 { exReceipt with status := some 0 } (by decide) (by decide) (by decide)

/-- Claim C5: in the native-asset validator, a transaction whose destination
address is on the configured blocked-address list fails with the
blocked-recipient reason, whatever the sender, amount and deposit-wallet
expectations are. -/
theorem C5_blocked_recipient_rejected (cfg : EthConfig) (blockedEnv : JStr)
    (pv : ProviderView) (txHash expectedSender : JStr) (amt : Int)
    (rec : ReceiptView) (tx : TxView) (hrec : pv.receipt = some rec)
    (hst : rec.status = some 1) (htx : pv.tx = some tx)
    (hblocked : EthService.isBlockedAddress blockedEnv (jsToLower (tx.toAddr.getD [])) = true) :
    EthService.validateIncomingTransfer cfg blockedEnv pv txHash amt expectedSender =
      ⟨false, some ("Blocked recipient".toList), some txHash, none, none, none, none⟩ := by
  simp only [EthService.validateIncomingTransfer, hrec, htx]
  rw [if_neg (by simp [hst]), if_pos hblocked]

/-- Witness for C5: the deposit wallet itself is on the blocked list
(with surrounding spaces in the environment value), the sender and the
amount match, and validation still fails with the blocked reason. -/
theorem C5_witness :
    EthService.validateIncomingTransfer exEthCfg
        ((" " ++ String.mk exDeposit ++ " ,0xbad").toList) exEthView ("0xhash".toList)
        1000000 ("0xabc".toList) =
      ⟨false, some ("Blocked recipient".toList), some ("0xhash".toList),
       none, none, none, none⟩ :=
  C5_blocked_recipient_rejected exEthCfg ((" " ++ String.mk exDeposit ++ " ,0xbad").toList)
    exEthView ("0xhash".toList) ("0xabc".toList) 1000000
    { status := some 1, blockNumber := some 5, logs := [] } exEthTx
    (by decide) (by decide) (by decide) (by decide)

/-- Claim C7: resolveSignerFor scans account indices 0 through 9 inclusive,
compares each derived address case-insensitively to the target, and
returns the first matching index; when no index below 10 matches it
fails with the address-not-derivable error, and its result never depends
on derivations past index 9. -/
theorem C7_resolve_signer_bounded_scan (mnemonic : JStr) (d : Nat → JStr) (target : JStr)
    (hm : mnemonic ≠ []) :
    (∀ j, resolveSignerForAddress mnemonic d target = .ok j ↔
      (j < 10 ∧ jsToLower (d j) = jsToLower target ∧
        ∀ k, k < j → jsToLower (d k) ≠ jsToLower target)) ∧
    ((∀ i, i < 10 → jsToLower (d i) ≠ jsToLower target) →
      resolveSignerForAddress mnemonic d target =
        .error ("Mnemonic does not derive the expected wallet address".toList)) ∧
    (∀ d2 : Nat → JStr, (∀ i, i < 10 → d i = d2 i) →
      resolveSignerForAddress mnemonic d target = resolveSignerForAddress mnemonic d2 target) := by
  refine ⟨fun j => ?_, fun hmiss => ?_, fun d2 hagree => ?_⟩
  · rw [resolveSignerForAddress, resolveLoop_ok_iff hm d (jsToLower target) 10 0 j rfl]
    constructor
    · rintro ⟨_, h2, h3, h4⟩
      exact ⟨h2, h3, fun k hk => h4 k (Nat.zero_le k) hk⟩
    · rintro ⟨h2, h3, h4⟩
      exact ⟨Nat.zero_le j, h2, h3, fun k _ hk => h4 k hk⟩
  · rw [resolveSignerForAddress]
    exact resolveLoop_none hm d (jsToLower target) 10 0 rfl (fun k _ hk => hmiss k hk)
  · rw [resolveSignerForAddress, resolveSignerForAddress]
    exact resolveLoop_congr mnemonic d d2 (jsToLower target) 10 0 rfl (fun k _ hk => hagree k hk)

/-- Witness for C7: a derivation whose index 3 matches the target
resolves to index 3, and one with no match below 10 fails. -/
theorem C7_witness :
    resolveSignerForAddress ("m".toList) exDerive ("0xABC".toList) = .ok 3 ∧
    resolveSignerForAddress ("m".toList) exDeriveMiss ("0xabc".toList) =
      .error ("Mnemonic does not derive the expected wallet address".toList) := by
  constructor
  · exact ((C7_resolve_signer_bounded_scan ("m".toList) exDerive ("0xABC".toList)
      (by decide)).1 3).mpr ⟨by decide, by decide, by decide⟩
  · exact (C7_resolve_signer_bounded_scan ("m".toList) exDeriveMiss ("0xabc".toList)
      (by decide)).2.1 (by decide)

/-- Claim C4: in the token-asset validator, when no emitted log matched, a
transaction whose destination is the token contract and whose call data
begins with the `transfer(address,uint256)` selector has its recipient
decoded from the low 20 bytes (40 hex characters) of the first 32-byte
argument slot (characters 10 to 74 of the call data) and its amount from
the second slot (characters 74 to 138), and the decoded transfer is
accepted as the match exactly when its sender equals the expected sender
and its recipient equals the deposit wallet, case-insensitively. -/
theorem C4_raw_calldata_fallback (cfg : UsdcConfig) (expectedSender : JStr)
    (logs : List LogEntry) (tx : TxView) (t : JStr) (v : Nat)
    (hnolog : findLogMatch cfg expectedSender logs = none)
    (ht : tx.toAddr = some t) (htne : ¬ t.isEmpty = true)
    (htok : jsToLower t = jsToLower cfg.tokenAddress)
    (hsel : List.isPrefixOf ("0xa9059cbb".toList) tx.data = true)
    (hval : parseHexDigits (jsSlice tx.data 74 138) = some v) :
    usdcMatchedTransfer cfg expectedSender logs (some tx) =
      .ok (if jsToLower (tx.fromAddr.getD []) = jsToLower expectedSender ∧
            jsToLower ('0' :: 'x' :: jsSliceFrom (jsSlice tx.data 10 74) 24) =
              jsToLower cfg.depositWallet
          then some ⟨jsToLower (tx.fromAddr.getD []), jsToLower cfg.depositWallet,
                     ((v : Nat) : Int)⟩
          else none) := by
  simp only [usdcMatchedTransfer, hnolog]
  simp only [fallbackMatch, ht]
  rw [if_pos ⟨htne, htok, hsel⟩]
  simp only [hval]
  by_cases hcond : jsToLower (tx.fromAddr.getD []) = jsToLower expectedSender ∧
      jsToLower ('0' :: 'x' :: jsSliceFrom (jsSlice tx.data 10 74) 24) =
        jsToLower cfg.depositWallet
  · rw [if_pos hcond, if_pos hcond]
  · rw [if_neg hcond, if_neg hcond]

/-- Witness for C4: a raw `transfer(depositWallet, 5)` call from the
expected sender, with no log match, is accepted with amount 5. -/
theorem C4_witness :
    usdcMatchedTransfer exCfg ("0xabc".toList) [] (some exTx) =
      .ok (some ⟨jsToLower (exTx.fromAddr.getD []), jsToLower exCfg.depositWallet,
                 ((5 : Nat) : Int)⟩) := by
  rw [C4_raw_calldata_fallback exCfg ("0xabc".toList) [] exTx ("0xtok".toList) 5
    (by decide) (by decide) (by decide) (by decide) (by decide) (by decide)]
  rw [if_pos (by decide)]

/-- Claim C1: in both validators, validation succeeds only when the amount of the matched
transfer equals the expected amount exactly: every success
result carries a positive confirmation count and a matched amount equal
to the expected amount, and a matched transfer whose amount deviates
from the expectation (the other checks passing) produces the
AmountMismatch failure, never a partial success. -/
theorem C1_success_iff_exact_amount (cfg : UsdcConfig) (ecfg : EthConfig) (blockedEnv : JStr)
    (pv : ProviderView) (txHash expectedSender : JStr) (amt : Int) :
    (∀ r, validateIncomingTransfer cfg pv txHash amt expectedSender = .ok r → r.ok = true →
      r.amount = some amt ∧ ∃ c, r.confirmations = some c ∧ 0 < c) ∧
    (∀ rec m, cfg.tokenAddress ≠ [] → pv.receipt = some rec → rec.status = some 1 →
      usdcMatchedTransfer cfg expectedSender rec.logs pv.tx = .ok (some m) → m.value ≠ amt →
      validateIncomingTransfer cfg pv txHash amt expectedSender =
        .ok ⟨false, some ("Amount mismatch".toList), some txHash, none, none, none, none⟩) ∧
    (∀ r, EthService.validateIncomingTransfer ecfg blockedEnv pv txHash amt expectedSender = r →
      r.ok = true → r.amount = some amt ∧ ∃ c, r.confirmations = some c ∧ 0 < c) ∧
    (∀ rec tx, pv.receipt = some rec → rec.status = some 1 → pv.tx = some tx →
      EthService.isBlockedAddress blockedEnv (jsToLower (tx.toAddr.getD [])) = false →
      jsToLower (tx.toAddr.getD []) = ecfg.depositWallet →
      jsToLower (tx.fromAddr.getD []) = jsToLower expectedSender →
      tx.value.getD 0 ≠ amt →
      EthService.validateIncomingTransfer ecfg blockedEnv pv txHash amt expectedSender =
        ⟨false, some ("Amount mismatch".toList), some txHash, none, none, none, none⟩) := by
  refine ⟨?_, ?_, ?_, ?_⟩
  · intro r h hok
    simp only [validateIncomingTransfer] at h
    split at h
    · simp only [Except.ok.injEq] at h; subst h; simp at hok
    · split at h
      · simp only [Except.ok.injEq] at h; subst h; simp at hok
      · split at h
        · simp only [Except.ok.injEq] at h; subst h; simp at hok
        · split at h
          · simp at h
          · simp only [Except.ok.injEq] at h; subst h; simp at hok
          · split at h
            · simp only [Except.ok.injEq] at h; subst h; simp at hok
            · split at h
              · simp only [Except.ok.injEq] at h; subst h; simp at hok
              · simp only [Except.ok.injEq] at h
                subst h
                refine ⟨?_, ⟨_, rfl, by omega⟩⟩
                simp only [Option.some.injEq]
                omega
  · intro rec m hcfg hrec hst hmatch hmv
    simp only [validateIncomingTransfer, hrec, hmatch]
    rw [if_neg (by simpa [List.isEmpty_iff] using hcfg), if_neg (by simp [hst]),
      if_pos hmv]
  · intro r h hok
    simp only [EthService.validateIncomingTransfer] at h
    split at h
    · subst h; simp at hok
    · split at h
      · subst h; simp at hok
      · split at h
        · subst h; simp at hok
        · split at h
          · subst h; simp at hok
          · split at h
            · subst h; simp at hok
            · split at h
              · subst h; simp at hok
              · split at h
                · subst h; simp at hok
                · split at h
                  · subst h; simp at hok
                  · subst h
                    refine ⟨?_, ⟨_, rfl, by omega⟩⟩
                    simp only [Option.some.injEq]
                    omega
  · intro rec tx hrec hst htx hblocked hrecip hsender hamt
    simp only [EthService.validateIncomingTransfer, hrec, htx]
    rw [if_neg (by simp [hst]), if_neg (by simp [hblocked]), if_neg (by simp [hrecip]),
      if_neg (by simp [hsender]), if_pos hamt]

/-- Witness for C1: a log-matched transfer of 1000000 at expectation
1000000 succeeds with matched amount 1000000 and 3 confirmations, and
the same snapshot at expectation 1000001 yields the AmountMismatch
failure. -/
theorem C1_witness :
    ((⟨true, none, some ("0xhash".toList), some 3, some 1000000, some ("0xabc".toList),
        some exDeposit⟩ : PurchaseValidationResult).amount = some 1000000 ∧
      ∃ c, (⟨true, none, some ("0xhash".toList), some 3, some 1000000, some ("0xabc".toList),
        some exDeposit⟩ : PurchaseValidationResult).confirmations = some c ∧ 0 < c) ∧
    validateIncomingTransfer exCfg exView ("0xhash".toList) 1000001 ("0xabc".toList) =
      .ok ⟨false, some ("Amount mismatch".toList), some ("0xhash".toList),
           none, none, none, none⟩ :=
  ⟨(C1_success_iff_exact_amount exCfg exEthCfg [] exView ("0xhash".toList) ("0xabc".toList)
      1000000).1
      ⟨true, none, some ("0xhash".toList), some 3, some 1000000, some ("0xabc".toList),
        some exDeposit⟩ rfl rfl,
   (C1_success_iff_exact_amount exCfg exEthCfg [] exView ("0xhash".toList) ("0xabc".toList)
      1000001).2.1 exReceipt ⟨"0xabc".toList, exDeposit, 1000000⟩ (by decide) rfl rfl rfl
      (by decide)⟩

/-- Claim C10: both validators compute the confirmation count as the current
head block number minus the block number of the receipt plus one, defaulting
to exactly 1 when the receipt carries no block number (so the
confirmation check passes in that case), and the not-enough-confirmations
failure occurs exactly when the head block number is strictly behind the
block number of the receipt. -/
theorem C10_confirmation_count (cfg : UsdcConfig) (ecfg : EthConfig) (blockedEnv : JStr)
    (pv : ProviderView) (txHash expectedSender : JStr) (amt : Int) :
    (∀ current : Int, confirmationsOf current none = 1) ∧
    (∀ current bn : Int, confirmationsOf current (some bn) = current - bn + 1) ∧
    (∀ current bn : Int, confirmationsOf current (some bn) < 1 ↔ current < bn) ∧
    (∀ rec m, cfg.tokenAddress ≠ [] → pv.receipt = some rec → rec.status = some 1 →
      usdcMatchedTransfer cfg expectedSender rec.logs pv.tx = .ok (some m) → m.value = amt →
      validateIncomingTransfer cfg pv txHash amt expectedSender =
        .ok (if confirmationsOf pv.blockNumber rec.blockNumber < 1 then
              ⟨false, some ("Not enough confirmations".toList), some txHash,
               some (confirmationsOf pv.blockNumber rec.blockNumber), none, none, none⟩
            else
              ⟨true, none, some txHash, some (confirmationsOf pv.blockNumber rec.blockNumber),
               some m.value, some m.fromAddr, some m.toAddr⟩)) ∧
    (∀ rec tx, pv.receipt = some rec → rec.status = some 1 → pv.tx = some tx →
      EthService.isBlockedAddress blockedEnv (jsToLower (tx.toAddr.getD [])) = false →
      jsToLower (tx.toAddr.getD []) = ecfg.depositWallet →
      jsToLower (tx.fromAddr.getD []) = jsToLower expectedSender →
      tx.value.getD 0 = amt →
      EthService.validateIncomingTransfer ecfg blockedEnv pv txHash amt expectedSender =
        (if confirmationsOf pv.blockNumber rec.blockNumber < 1 then
          ⟨false, some ("Not enough confirmations".toList), some txHash,
           some (confirmationsOf pv.blockNumber rec.blockNumber), none, none, none⟩
        else
          ⟨true, none, some txHash, some (confirmationsOf pv.blockNumber rec.blockNumber),
           some (tx.value.getD 0), some (jsToLower (tx.fromAddr.getD [])),
           some (jsToLower (tx.toAddr.getD []))⟩)) := by
  refine ⟨?_, ?_, ?_, ?_, ?_⟩
  · intro current
    simp [confirmationsOf]
  · intro current bn
    rfl
  · intro current bn
    simp only [confirmationsOf, Option.getD]
    omega
  · intro rec m hcfg hrec hst hmatch hmv
    simp only [validateIncomingTransfer, hrec, hmatch]
    rw [if_neg (by simpa [List.isEmpty_iff] using hcfg), if_neg (by simp [hst]),
      if_neg (by simp [hmv])]
    by_cases hc : confirmationsOf pv.blockNumber rec.blockNumber < 1
    · rw [if_pos hc, if_pos hc]
    · rw [if_neg hc, if_neg hc]
  · intro rec tx hrec hst htx hblocked hrecip hsender hamt
    simp only [EthService.validateIncomingTransfer, hrec, htx]
    rw [if_neg (by simp [hst]), if_neg (by simp [hblocked]), if_neg (by simp [hrecip]),
      if_neg (by simp [hsender]), if_neg (by simp [hamt])]

/-- Witness for C10: a receipt without a block number validates with a
confirmation count of exactly 1. -/
theorem C10_witness :
    validateIncomingTransfer exCfg exNoBlockView ("0xhash".toList) 1000000 ("0xabc".toList) =
      .ok ⟨true, none, some ("0xhash".toList), some 1, some 1000000, some ("0xabc".toList),
           some exDeposit⟩ := by
  have h := (C10_confirmation_count exCfg exEthCfg [] exNoBlockView ("0xhash".toList)
      ("0xabc".toList) 1000000).2.2.2.1
      { status := some 1, blockNumber := none, logs := exReceipt.logs }
      ⟨"0xabc".toList, exDeposit, 1000000⟩ (by decide) rfl rfl rfl rfl
  rw [h]
  rfl
